import Mathlib

/-!
Shallow embedding of the aggregation core of the aFRR capacity-price
dashboard (`src/app.py`).

The program loads one year of price records (`DATE_FROM`, `PRODUCT`,
`GERMANY_AVERAGE_CAPACITY_PRICE_[(EUR/MW)/h]`,
`GERMANY_MARGINAL_CAPACITY_PRICE_[(EUR/MW)/h]`), derives a month label from
each timestamp, and builds:

* mean / max pivot tables
  (`df.pivot_table(index='Month', columns='PRODUCT', values=field,
  aggfunc=...).reindex(months_order)[products]`),
* a day-of-maximum table (`build_max_day_annotation`:
  `sort_values('DATE_FROM')`, `groupby(['Month','PRODUCT'])[field].idxmax()`,
  pivot on DAY, reindex, column selection),
* global color ranges (`min(up.min().min(), dn.min().min())` and the
  matching `max`),
* a daily 12-entry price list (the `prices` loop, with `float('nan')` for a
  product that has no record on the selected day).

All records belong to one selected year, so a timestamp is modelled as the
pair (month, day-of-month) ordered lexicographically.  Prices are modelled
as rationals.  A pandas cell that holds NaN because the (month, product)
group is empty is modelled as `Option.none`; the Python float produced by
the daily loop (a number or `float('nan')`) is modelled by `PyFloat`.

Selecting a list of columns that is not fully present
(`frame[products]` after the pivot) raises `KeyError` in pandas; this is
modelled by `Except.error "KeyError"`.
-/

namespace AFRR

/-- The twelve product codes of `src/app.py` (lines 93-100). -/
inductive Product where
  | POS_00_04 | POS_04_08 | POS_08_12 | POS_12_16 | POS_16_20 | POS_20_24
  | NEG_00_04 | NEG_04_08 | NEG_08_12 | NEG_12_16 | NEG_16_20 | NEG_20_24
deriving DecidableEq, Repr

/-- `upward_products` (src/app.py lines 93-96). -/
def upward_products : List Product :=
  [.POS_00_04, .POS_04_08, .POS_08_12, .POS_12_16, .POS_16_20, .POS_20_24]

/-- `downward_products` (src/app.py lines 97-100). -/
def downward_products : List Product :=
  [.NEG_00_04, .NEG_04_08, .NEG_08_12, .NEG_12_16, .NEG_16_20, .NEG_20_24]

/-- `months_order` (src/app.py lines 102-103), month labels as 1..12. -/
def monthsOrder : List Nat := [1, 2, 3, 4, 5, 6, 7, 8, 9, 10, 11, 12]

/-- One parsed CSV row of the selected year: `DATE_FROM` is modelled as
(month, day-of-month); `avg` and `marginal` are the two price columns. -/
structure Record where
  month : Nat
  day : Nat
  product : Product
  avg : ℚ
  marginal : ℚ
deriving DecidableEq, Repr

/-- Chronological order of `DATE_FROM` timestamps inside one year:
lexicographic on (month, day). -/
def chronoLE (a b : Record) : Prop :=
  a.month < b.month ∨ (a.month = b.month ∧ a.day ≤ b.day)

instance : DecidableRel chronoLE := fun a b =>
  inferInstanceAs (Decidable (a.month < b.month ∨ (a.month = b.month ∧ a.day ≤ b.day)))

instance : IsTotal Record chronoLE := by
  constructor
  intro a b
  unfold chronoLE
  rcases Nat.lt_trichotomy a.month b.month with h | h | h
  · exact Or.inl (Or.inl h)
  · rcases Nat.le_total a.day b.day with hd | hd
    · exact Or.inl (Or.inr ⟨h, hd⟩)
    · exact Or.inr (Or.inr ⟨h.symm, hd⟩)
  · exact Or.inr (Or.inl h)

instance : IsTrans Record chronoLE := by
  constructor
  intro a b c hab hbc
  unfold chronoLE at *
  rcases hab with h1 | ⟨h1, h1d⟩ <;> rcases hbc with h2 | ⟨h2, h2d⟩
  · exact Or.inl (h1.trans h2)
  · exact Or.inl (h2 ▸ h1)
  · exact Or.inl (h1 ▸ h2)
  · exact Or.inr ⟨h1.trans h2, h1d.trans h2d⟩

/-- `df.sort_values('DATE_FROM')` (src/app.py line 116). -/
def sort_values (l : List Record) : List Record :=
  List.insertionSort chronoLE l

/-- The rows of the (month, product) group: `groupby(['Month','PRODUCT'])`
restricted to one key, in the row order of the input frame. -/
def groupRecs (l : List Record) (m : Nat) (p : Product) : List Record :=
  l.filter (fun r => decide (r.month = m ∧ r.product = p))

/-- `Series.idxmax` over a group laid out in frame order: the first row
achieving the maximum of the chosen field (src/app.py line 117). -/
def idxmax (f : Record → ℚ) : List Record → Option Record
  | [] => none
  | a :: t =>
    match idxmax f t with
    | none => some a
    | some b => if f a < f b then some b else some a

/-- The two pivot aggregators used by `pivot_table` (src/app.py lines
178, 222): `'mean'` and `'max'`.  Over an empty group no cell is produced
(pandas leaves NaN after reindexing). -/
inductive Agg where
  | mean | max
deriving DecidableEq, Repr

def applyAgg : Agg → List ℚ → Option ℚ
  | _, [] => none
  | .mean, l => some (l.sum / (l.length : ℚ))
  | .max, a :: t => some (t.foldl Max.max a)

/-- `df[df['PRODUCT'].isin(family)]` (src/app.py lines 105-106). -/
def familyFilter (rs : List Record) (fam : List Product) : List Record :=
  rs.filter (fun r => decide (r.product ∈ fam))

/-- Whether some row of the frame carries the product, i.e. whether the
pivot output owns that column. -/
def hasProduct (rs : List Record) (p : Product) : Bool :=
  rs.any (fun r => decide (r.product = p))

/-- A month-times-product table with row and column labels: the pandas
frame produced by `reindex(months_order)[products]`. -/
abbrev Grid (α : Type) := List (Nat × List (Product × Option α))

/-- The reindexed 12-row grid over the requested columns: row labels are
`months_order`, column labels are the requested products, a cell is the
aggregate of its group (NaN, i.e. `none`, when the group is empty). -/
def mkGrid {α : Type} (cols : List Product) (cell : Nat → Product → Option α) : Grid α :=
  monthsOrder.map (fun m => (m, cols.map (fun p => (p, cell m p))))

/-- First-key association lookup (label-based row/column access). -/
def lookupKey {κ α : Type} [DecidableEq κ] (k : κ) : List (κ × α) → Option α
  | [] => none
  | (k', v) :: t => if k = k' then some v else lookupKey k t

/-- The cell of a labelled grid at (month, product); `none` when the label
is absent or the cell holds NaN. -/
def cellAt {α : Type} (t : Grid α) (m : Nat) (p : Product) : Option α :=
  ((lookupKey m t).bind (fun row => lookupKey p row)).join

/-- The cell of a pivot result that may have failed with `KeyError`. -/
def okCell {α : Type} (e : Except String (Grid α)) (m : Nat) (p : Product) : Option α :=
  match e with
  | Except.ok t => cellAt t m p
  | Except.error _ => none

/-- One (month, product) cell of `pivot_table(index='Month',
columns='PRODUCT', values=field, aggfunc=agg)`. -/
def pivotCell (rs : List Record) (field : Record → ℚ) (agg : Agg) (m : Nat) (p : Product) :
    Option ℚ :=
  applyAgg agg ((groupRecs rs m p).map field)

/-- The full pivot pipeline of src/app.py lines 173-181 / 217-225 with the
spec's interface `aggregate(records, family, field, combiner)`: filter to
the family, pivot with the aggregator, reindex the rows onto
`months_order` and select the family's columns.  The pivot output only
owns columns for products that occur in the filtered frame, so the column
selection `[products]` raises `KeyError` when some family product has no
record at all. -/
def aggregate (rs : List Record) (fam : List Product) (field : Record → ℚ) (agg : Agg) :
    Except String (Grid ℚ) :=
  if fam.all (fun p => hasProduct (familyFilter rs fam) p) then
    Except.ok (mkGrid fam (fun m p => pivotCell (familyFilter rs fam) field agg m p))
  else
    Except.error "KeyError"

/-- One cell of the day-of-maximum table: the day-of-month of the row
selected by `idxmax` inside the chronologically sorted group
(src/app.py lines 116-121). -/
def annotCell (rs : List Record) (field : Record → ℚ) (m : Nat) (p : Product) : Option Nat :=
  (idxmax field (groupRecs (sort_values rs) m p)).map (fun r => r.day)

/-- `build_max_day_annotation(df, products, price_col)`
(src/app.py lines 111-124): sort chronologically, group by
(Month, PRODUCT), take each group's `idxmax` row, pivot its day-of-month,
reindex onto `months_order` and select the requested columns.  As with
`aggregate`, the final column selection raises `KeyError` when a requested
product occurs in no row of the given frame. -/
def buildMaxDayAnnot (rs : List Record) (ps : List Product) (field : Record → ℚ) :
    Except String (Grid Nat) :=
  if ps.all (fun p => hasProduct rs p) then
    Except.ok (mkGrid ps (fun m p => annotCell rs field m p))
  else
    Except.error "KeyError"

/-- A Python float as produced by the daily-view loop: a number, or
`float('nan')`. -/
inductive PyFloat where
  | num (q : ℚ)
  | nan
deriving DecidableEq, Repr

/-- `all_products = upward_products + downward_products`
(src/app.py line 380). -/
def allProducts : List Product := upward_products ++ downward_products

/-- The daily view extraction (src/app.py lines 377-386): restrict the
frame to the selected day, then for each of the 12 products in fixed order
take the chosen price field of the first matching row, or `float('nan')`
when the day has no row for that product. -/
def extract_day (rs : List Record) (m d : Nat) (field : Record → ℚ) : List PyFloat :=
  let day_df := rs.filter (fun r => decide (r.month = m ∧ r.day = d))
  allProducts.map (fun p =>
    match (day_df.filter (fun r => decide (r.product = p))).head? with
    | some r => PyFloat.num (field r)
    | none => PyFloat.nan)

/-- `Series.min()` with the default `skipna=True`: the minimum of the
non-NaN entries, NaN when there is none. -/
def optMin : List (Option ℚ) → Option ℚ
  | [] => none
  | none :: t => optMin t
  | some q :: t =>
    match optMin t with
    | none => some q
    | some m => some (Min.min q m)

/-- `Series.max()` with the default `skipna=True`. -/
def optMax : List (Option ℚ) → Option ℚ
  | [] => none
  | none :: t => optMax t
  | some q :: t =>
    match optMax t with
    | none => some q
    | some m => some (Max.max q m)

/-- The column labels a frame owns (all rows share them). -/
def gridCols {α : Type} (t : Grid α) : List Product :=
  match t with
  | [] => []
  | row :: _ => row.2.map Prod.fst

/-- The entries of one labelled column, in row order. -/
def colValues (t : Grid ℚ) (p : Product) : List (Option ℚ) :=
  t.map (fun row => (lookupKey p row.2).join)

/-- `frame.min().min()` (src/app.py line 193): per-column minima, then the
minimum of those, skipping NaN at both stages. -/
def dfMin (t : Grid ℚ) : Option ℚ :=
  optMin ((gridCols t).map (fun p => optMin (colValues t p)))

/-- `frame.max().max()` (src/app.py line 194). -/
def dfMax (t : Grid ℚ) : Option ℚ :=
  optMax ((gridCols t).map (fun p => optMax (colValues t p)))

/-- Python's built-in `min(a, b)`: starts from `a` and replaces it by `b`
only when `b < a` holds; every comparison against NaN is false, so
`min(nan, x) = nan` while `min(x, nan) = x`. -/
def pymin (a b : Option ℚ) : Option ℚ :=
  match a, b with
  | some x, some y => if y < x then some y else some x
  | _, _ => a

/-- Python's built-in `max(a, b)`: starts from `a` and replaces it by `b`
only when `b > a` holds, so `max(nan, x) = nan` while `max(x, nan) = x`. -/
def pymax (a b : Option ℚ) : Option ℚ :=
  match a, b with
  | some x, some y => if x < y then some y else some x
  | _, _ => a

/-- The cross-family colour range (src/app.py lines 193-194):
`(min(A.min().min(), B.min().min()), max(A.max().max(), B.max().max()))`. -/
def value_range (A B : Grid ℚ) : Option ℚ × Option ℚ :=
  (pymin (dfMin A) (dfMin B), pymax (dfMax A) (dfMax B))

/-- The defined (non-NaN) cells of a grid, row-major. -/
def definedCells (t : Grid ℚ) : List ℚ :=
  (t.map (fun row => row.2.filterMap (fun c => c.2))).flatten

/-- A rectangular frame: every row carries exactly the frame's columns. -/
def Rect {α : Type} (t : Grid α) : Prop :=
  ∀ row ∈ t, row.2.map Prod.fst = gridCols t

instance {α : Type} [DecidableEq α] (t : Grid α) : Decidable (Rect t) :=
  inferInstanceAs (Decidable (∀ row ∈ t, row.2.map Prod.fst = gridCols t))

/-- The dataset invariant of the spec (section 3): each (date, product)
pair occurs at most once. -/
def dne (a b : Record) : Prop :=
  ¬(a.product = b.product ∧ a.month = b.month ∧ a.day = b.day)

instance : DecidableRel dne := fun a b =>
  inferInstanceAs (Decidable ¬(a.product = b.product ∧ a.month = b.month ∧ a.day = b.day))

/-- Modelled from the spec (section 4.2): `r` is the chronologically first
record of the group `g` achieving the group's maximum of the field `f`. -/
def isChronoFirstMax (g : List Record) (f : Record → ℚ) (r : Record) : Prop :=
  r ∈ g ∧ (∀ x ∈ g, f x ≤ f r) ∧ (∀ x ∈ g, f x = f r → chronoLE r x)

/-- The spec's scenario records — three `POS_00_04` observations in January
with average prices 10, 30 and 20 on days 3, 17 and 25 — completed (as the
counterexample below forces) with one record for each other upward
product, so that the pivots do not fail on missing columns. -/
def scenarioRecords : List Record :=
  [⟨1, 3, .POS_00_04, 10, 0⟩, ⟨1, 17, .POS_00_04, 30, 0⟩, ⟨1, 25, .POS_00_04, 20, 0⟩,
   ⟨2, 1, .POS_04_08, 1, 0⟩, ⟨2, 1, .POS_08_12, 1, 0⟩, ⟨2, 1, .POS_12_16, 1, 0⟩,
   ⟨2, 1, .POS_16_20, 1, 0⟩, ⟨2, 1, .POS_20_24, 1, 0⟩]

/-! ### Basic lemmas about label lookup and grid construction -/

theorem lookupKey_map_self {κ α : Type} [DecidableEq κ] (g : κ → α) :
    ∀ (l : List κ) (k : κ), k ∈ l → lookupKey k (l.map fun x => (x, g x)) = some (g k)
  | [], k, hk => absurd hk (List.not_mem_nil k)
  | a :: t, k, hk => by
    by_cases h : k = a
    · subst h
      simp [lookupKey]
    · have hkt : k ∈ t := by
        rcases List.mem_cons.mp hk with h' | h'
        · exact absurd h' h
        · exact h'
      simpa [lookupKey, h] using lookupKey_map_self g t k hkt

theorem cellAt_mkGrid {α : Type} (cols : List Product) (cell : Nat → Product → Option α)
    {m : Nat} {p : Product} (hm : m ∈ monthsOrder) (hp : p ∈ cols) :
    cellAt (mkGrid cols cell) m p = cell m p := by
  unfold cellAt mkGrid
  rw [lookupKey_map_self _ monthsOrder m hm]
  show (lookupKey p (cols.map fun p => (p, cell m p))).join = cell m p
  rw [lookupKey_map_self _ cols p hp]
  rfl

theorem mkGrid_rowLabels {α : Type} (cols : List Product) (cell : Nat → Product → Option α) :
    (mkGrid cols cell).map Prod.fst = monthsOrder := by
  simp [mkGrid, List.map_map, Function.comp_def]

theorem mkGrid_colLabels {α : Type} (cols : List Product) (cell : Nat → Product → Option α) :
    ∀ row ∈ mkGrid cols cell, row.2.map Prod.fst = cols := by
  intro row hrow
  rcases List.mem_map.mp hrow with ⟨m, _, rfl⟩
  simp [List.map_map, Function.comp_def]

/-! ### Lemmas about the aggregators -/

theorem applyAgg_eq_none {agg : Agg} {l : List ℚ} : applyAgg agg l = none ↔ l = [] := by
  cases agg <;> cases l <;> simp [applyAgg]

theorem applyAgg_mean_eq {l : List ℚ} (h : l ≠ []) :
    applyAgg Agg.mean l = some (l.sum / (l.length : ℚ)) := by
  cases l with
  | nil => exact absurd rfl h
  | cons a t => rfl

theorem foldl_max_spec (t : List ℚ) (a : ℚ) :
    t.foldl Max.max a ∈ a :: t ∧ a ≤ t.foldl Max.max a ∧ ∀ x ∈ t, x ≤ t.foldl Max.max a := by
  induction t generalizing a with
  | nil => simp
  | cons b t ih =>
    rcases ih (Max.max a b) with ⟨hmem, hle, hall⟩
    have hfold : (b :: t).foldl Max.max a = t.foldl Max.max (Max.max a b) := rfl
    refine ⟨?_, ?_, ?_⟩
    · rw [hfold]
      rcases List.mem_cons.mp hmem with h | h
      · rcases max_choice a b with hm | hm
        · rw [h, hm]
          exact List.mem_cons_self _ _
        · rw [h, hm]
          exact List.mem_cons_of_mem _ (List.mem_cons_self _ _)
      · exact List.mem_cons_of_mem _ (List.mem_cons_of_mem _ h)
    · rw [hfold]
      exact le_trans (le_max_left a b) hle
    · intro x hx
      rw [hfold]
      rcases List.mem_cons.mp hx with rfl | hx
      · exact le_trans (le_max_right a x) hle
      · exact hall x hx

theorem applyAgg_max_eq_some {l : List ℚ} {v : ℚ} :
    applyAgg Agg.max l = some v ↔ v ∈ l ∧ ∀ x ∈ l, x ≤ v := by
  cases l with
  | nil => simp [applyAgg]
  | cons a t =>
    show some (t.foldl Max.max a) = some v ↔ _
    rcases foldl_max_spec t a with ⟨hmem, hle, hall⟩
    simp only [Option.some.injEq]
    constructor
    · rintro rfl
      refine ⟨hmem, ?_⟩
      intro x hx
      rcases List.mem_cons.mp hx with rfl | hx
      · exact hle
      · exact hall x hx
    · rintro ⟨hv, hbound⟩
      have h1 : t.foldl Max.max a ≤ v := hbound _ hmem
      have h2 : v ≤ t.foldl Max.max a := by
        rcases List.mem_cons.mp hv with rfl | hv
        · exact hle
        · exact hall v hv
      exact le_antisymm h1 h2

theorem applyAgg_perm {l l' : List ℚ} (h : l.Perm l') (agg : Agg) :
    applyAgg agg l = applyAgg agg l' := by
  by_cases hl : l = []
  · subst hl
    rw [List.Perm.eq_nil h.symm]
  · have hl' : l' ≠ [] := fun he => hl (List.Perm.eq_nil (he ▸ h))
    cases agg with
    | mean =>
      rw [applyAgg_mean_eq hl, applyAgg_mean_eq hl', h.sum_eq, h.length_eq]
    | max =>
      rcases hv : applyAgg Agg.max l' with _ | v
      · exact absurd (applyAgg_eq_none.mp hv) hl'
      · rcases applyAgg_max_eq_some.mp hv with ⟨hmem, hbound⟩
        exact applyAgg_max_eq_some.mpr
          ⟨h.mem_iff.mpr hmem, fun x hx => hbound x (h.mem_iff.mp hx)⟩

theorem applyAgg_mean_singleton (x : ℚ) : applyAgg Agg.mean [x] = some x := by
  rw [applyAgg_mean_eq (by simp)]
  norm_num

/-! ### Lemmas about the pivot pipeline -/

theorem mem_groupRecs {l : List Record} {m : Nat} {p : Product} {r : Record} :
    r ∈ groupRecs l m p ↔ r ∈ l ∧ r.month = m ∧ r.product = p := by
  simp [groupRecs, List.mem_filter]

theorem all_hasProduct_iff (rs : List Record) (fam : List Product) :
    (fam.all fun p => hasProduct (familyFilter rs fam) p) = true ↔
      ∀ p ∈ fam, ∃ r ∈ rs, r.product = p := by
  rw [List.all_eq_true]
  constructor
  · intro h p hp
    have := h p hp
    rcases List.any_eq_true.mp this with ⟨r, hr, hpr⟩
    exact ⟨r, (List.mem_filter.mp hr).1, of_decide_eq_true hpr⟩
  · intro h p hp
    rcases h p hp with ⟨r, hr, hpr⟩
    refine List.any_eq_true.mpr ⟨r, ?_, decide_eq_true hpr⟩
    exact List.mem_filter.mpr ⟨hr, decide_eq_true (hpr ▸ hp)⟩

theorem groupRecs_familyFilter (rs : List Record) {fam : List Product} {p : Product}
    (hp : p ∈ fam) (m : Nat) :
    groupRecs (familyFilter rs fam) m p = groupRecs rs m p := by
  unfold groupRecs familyFilter
  rw [List.filter_filter]
  apply List.filter_congr
  intro r _
  by_cases h : r.month = m ∧ r.product = p
  · have : r.product ∈ fam := h.2 ▸ hp
    simp [h, this, hp]
  · simp [h]

theorem aggregate_ok (rs : List Record) (fam : List Product) (field : Record → ℚ) (agg : Agg)
    (h : ∀ p ∈ fam, ∃ r ∈ rs, r.product = p) :
    aggregate rs fam field agg =
      Except.ok (mkGrid fam (fun m p => pivotCell (familyFilter rs fam) field agg m p)) := by
  unfold aggregate
  rw [if_pos ((all_hasProduct_iff rs fam).mpr h)]

theorem aggregate_error (rs : List Record) (fam : List Product) (field : Record → ℚ) (agg : Agg)
    (h : ¬∀ p ∈ fam, ∃ r ∈ rs, r.product = p) :
    aggregate rs fam field agg = Except.error "KeyError" := by
  unfold aggregate
  rw [if_neg (fun hc => h ((all_hasProduct_iff rs fam).mp hc))]

theorem pivotCell_eq_of_mem (rs : List Record) {fam : List Product} {p : Product}
    (hp : p ∈ fam) (field : Record → ℚ) (agg : Agg) (m : Nat) :
    pivotCell (familyFilter rs fam) field agg m p =
      applyAgg agg ((groupRecs rs m p).map field) := by
  unfold pivotCell
  rw [groupRecs_familyFilter rs hp]

/-- The cell of a successful `aggregate` is the aggregate of the plain
(month, product) group of the input records. -/
theorem okCell_aggregate (rs : List Record) {fam : List Product} (field : Record → ℚ)
    (agg : Agg) {m : Nat} {p : Product} (hm : m ∈ monthsOrder) (hp : p ∈ fam)
    (h : ∀ q ∈ fam, ∃ r ∈ rs, r.product = q) :
    okCell (aggregate rs fam field agg) m p = applyAgg agg ((groupRecs rs m p).map field) := by
  rw [aggregate_ok rs fam field agg h]
  show cellAt (mkGrid fam _) m p = _
  rw [cellAt_mkGrid fam _ hm hp, pivotCell_eq_of_mem rs hp]

theorem hasProduct_perm {rs rs' : List Record} (h : rs'.Perm rs) (p : Product) :
    hasProduct rs' p = hasProduct rs p := by
  unfold hasProduct
  rcases hb : rs.any (fun r => decide (r.product = p)) with _ | _
  · rcases hb' : rs'.any (fun r => decide (r.product = p)) with _ | _
    · rfl
    · rcases List.any_eq_true.mp hb' with ⟨r, hr, hpr⟩
      exact absurd (List.any_eq_true.mpr ⟨r, h.mem_iff.mp hr, hpr⟩) (by rw [hb]; simp)
  · rcases List.any_eq_true.mp hb with ⟨r, hr, hpr⟩
    exact List.any_eq_true.mpr ⟨r, h.mem_iff.mpr hr, hpr⟩

theorem familyFilter_perm {rs rs' : List Record} (h : rs'.Perm rs) (fam : List Product) :
    (familyFilter rs' fam).Perm (familyFilter rs fam) :=
  h.filter _

theorem groupRecs_perm {l l' : List Record} (h : l'.Perm l) (m : Nat) (p : Product) :
    (groupRecs l' m p).Perm (groupRecs l m p) :=
  h.filter _

/-- `aggregate` is invariant under permutations of the input records,
error behaviour included. -/
theorem aggregate_perm (rs rs' : List Record) (fam : List Product) (field : Record → ℚ)
    (agg : Agg) (hperm : rs'.Perm rs) :
    aggregate rs' fam field agg = aggregate rs fam field agg := by
  unfold aggregate
  have hfun : (fun p => hasProduct (familyFilter rs' fam) p) =
      (fun p => hasProduct (familyFilter rs fam) p) :=
    funext fun p => hasProduct_perm (familyFilter_perm hperm fam) p
  rw [hfun]
  by_cases hc : (fam.all fun p => hasProduct (familyFilter rs fam) p) = true
  · rw [if_pos hc, if_pos hc]
    congr 1
    unfold mkGrid
    apply List.map_congr_left
    intro m _
    congr 1
    apply List.map_congr_left
    intro p _
    congr 1
    unfold pivotCell
    exact applyAgg_perm
      (((familyFilter_perm hperm fam).filter _).map field) agg
  · rw [if_neg hc, if_neg hc]

theorem aggregate_ok_inv {rs : List Record} {fam : List Product} {field : Record → ℚ}
    {agg : Agg} {t : Grid ℚ} (h : aggregate rs fam field agg = Except.ok t) :
    t = mkGrid fam (fun m p => pivotCell (familyFilter rs fam) field agg m p) ∧
      ∀ p ∈ fam, ∃ r ∈ rs, r.product = p := by
  unfold aggregate at h
  by_cases hc : (fam.all fun p => hasProduct (familyFilter rs fam) p) = true
  · rw [if_pos hc] at h
    exact ⟨(Except.ok.inj h).symm, (all_hasProduct_iff rs fam).mp hc⟩
  · rw [if_neg hc] at h
    exact absurd h (by simp)

/-- The shape of any successful `aggregate` output: 12 month-labelled rows
in calendar order, the requested columns in requested order, and a cell is
NaN exactly when the (month, product) group is empty. -/
theorem aggregate_ok_shape {rs : List Record} {fam : List Product} {field : Record → ℚ}
    {agg : Agg} {t : Grid ℚ} (h : aggregate rs fam field agg = Except.ok t) :
    t.map Prod.fst = monthsOrder ∧ (∀ row ∈ t, row.2.map Prod.fst = fam) ∧
      ∀ m ∈ monthsOrder, ∀ p ∈ fam,
        (cellAt t m p = none ↔ ∀ r ∈ rs, ¬(r.month = m ∧ r.product = p)) := by
  rcases aggregate_ok_inv h with ⟨rfl, _⟩
  refine ⟨mkGrid_rowLabels _ _, mkGrid_colLabels _ _, ?_⟩
  intro m hm p hp
  rw [cellAt_mkGrid _ _ hm hp, pivotCell_eq_of_mem rs hp]
  rw [show (applyAgg agg ((groupRecs rs m p).map field) = none) ↔
        (groupRecs rs m p).map field = [] from applyAgg_eq_none]
  rw [List.map_eq_nil_iff]
  unfold groupRecs
  rw [List.filter_eq_nil_iff]
  simp only [decide_eq_true_eq]

/-! ### Claim C1 -/

/-- C1 (amended): for every input in which each product of the family
occurs in at least one record, `aggregate` (pivot with mean or max
followed by reindexing and column selection) produces a table with
exactly the 12 month rows in order Jan..Dec and exactly the family's 6
products as columns in fixed period order, cells of absent
(month, product) groups being left undefined.  The original claim's
"including the empty sequence" fails: when some family product has no
record (in particular on empty input) the column selection raises
`KeyError` instead of producing a table. -/
theorem aggregate_shape_of_present (rs : List Record) (fam : List Product)
    (field : Record → ℚ) (agg : Agg)
    (hpres : ∀ p ∈ fam, ∃ r ∈ rs, r.product = p) :
    ∃ t, aggregate rs fam field agg = Except.ok t ∧
      t.map Prod.fst = monthsOrder ∧
      (∀ row ∈ t, row.2.map Prod.fst = fam) ∧
      ∀ m ∈ monthsOrder, ∀ p ∈ fam,
        (cellAt t m p = none ↔ ∀ r ∈ rs, ¬(r.month = m ∧ r.product = p)) :=
  ⟨_, aggregate_ok rs fam field agg hpres, aggregate_ok_shape (aggregate_ok rs fam field agg hpres)⟩

/-- C1 counterexample: on the empty record sequence `aggregate` does not
produce a 12-row table at all; the column selection fails with
`KeyError` because the empty pivot owns no columns. -/
theorem aggregate_empty_input_keyerror :
    aggregate ([] : List Record) upward_products (fun r => r.avg) Agg.mean =
      Except.error "KeyError" := rfl

/-- Witness for `aggregate_shape_of_present` at a concrete input with all
six upward products present. -/
theorem aggregate_shape_of_present_witness :
    ∃ t, aggregate
        [⟨1, 1, .POS_00_04, 10, 0⟩, ⟨2, 2, .POS_04_08, 11, 0⟩, ⟨3, 3, .POS_08_12, 12, 0⟩,
         ⟨4, 4, .POS_12_16, 13, 0⟩, ⟨5, 5, .POS_16_20, 14, 0⟩, ⟨6, 6, .POS_20_24, 15, 0⟩]
        upward_products (fun r => r.avg) Agg.mean = Except.ok t ∧
      t.map Prod.fst = monthsOrder ∧
      (∀ row ∈ t, row.2.map Prod.fst = upward_products) ∧
      ∀ m ∈ monthsOrder, ∀ p ∈ upward_products,
        (cellAt t m p = none ↔
          ∀ r ∈ [⟨1, 1, .POS_00_04, 10, 0⟩, ⟨2, 2, .POS_04_08, 11, 0⟩, ⟨3, 3, .POS_08_12, 12, 0⟩,
                 ⟨4, 4, .POS_12_16, 13, 0⟩, ⟨5, 5, .POS_16_20, 14, 0⟩,
                 (⟨6, 6, .POS_20_24, 15, 0⟩ : Record)],
            ¬(r.month = m ∧ r.product = p)) :=
  aggregate_shape_of_present _ upward_products (fun r => r.avg) Agg.mean (by decide)

/-! ### Claim C7 -/

/-- C7 (amended): `aggregate` is invariant under every permutation of the
input record sequence (identical output, error behaviour included), and
whenever it succeeds the table has months in calendar order Jan-Dec,
products in fixed period order, and an empty/undefined cell exactly at the
missing (month, product) combinations.  The original claim's
"regardless of ... completeness" fails: an input in which a family
product is wholly absent makes `aggregate` raise `KeyError` instead of
emitting a table with an empty column. -/
theorem aggregate_perm_invariant (rs rs' : List Record) (fam : List Product)
    (field : Record → ℚ) (agg : Agg) (hperm : rs'.Perm rs) :
    aggregate rs' fam field agg = aggregate rs fam field agg ∧
    ∀ t, aggregate rs fam field agg = Except.ok t →
      t.map Prod.fst = monthsOrder ∧ (∀ row ∈ t, row.2.map Prod.fst = fam) ∧
      ∀ m ∈ monthsOrder, ∀ p ∈ fam,
        (cellAt t m p = none ↔ ∀ r ∈ rs, ¬(r.month = m ∧ r.product = p)) :=
  ⟨aggregate_perm rs rs' fam field agg hperm, fun _ h => aggregate_ok_shape h⟩

/-- C7 counterexample: a (month, product) combination missing from the
input because the product has no record at all yields `KeyError`, not an
empty cell. -/
theorem aggregate_missing_combination_errors :
    aggregate [⟨2, 4, .POS_04_08, 7, 0⟩] upward_products (fun r => r.avg) Agg.mean =
      Except.error "KeyError" := rfl

/-- Witness for `aggregate_perm_invariant` at a concrete permuted pair. -/
theorem aggregate_perm_invariant_witness :
    aggregate [⟨2, 2, .POS_04_08, 11, 0⟩, (⟨1, 1, .POS_00_04, 10, 0⟩ : Record)]
        upward_products (fun r => r.avg) Agg.mean =
      aggregate [⟨1, 1, .POS_00_04, 10, 0⟩, (⟨2, 2, .POS_04_08, 11, 0⟩ : Record)]
        upward_products (fun r => r.avg) Agg.mean :=
  (aggregate_perm_invariant
    [⟨1, 1, .POS_00_04, 10, 0⟩, ⟨2, 2, .POS_04_08, 11, 0⟩]
    [⟨2, 2, .POS_04_08, 11, 0⟩, ⟨1, 1, .POS_00_04, 10, 0⟩]
    upward_products (fun r => r.avg) Agg.mean (by decide)).1

/-! ### Claim C9 -/

/-- C9 (amended): whenever `aggregate` succeeds (each family product has a
record) and a (month, product) group contains exactly one record, the mean
cell is exactly that record's field value, with no rounding or
perturbation.  The original unconditional claim fails because a record set
whose singleton group is the only data makes `aggregate` raise `KeyError`
for the other five products. -/
theorem aggregate_mean_singleton_exact (rs : List Record) (fam : List Product)
    (field : Record → ℚ) {m : Nat} {p : Product} {r : Record}
    (hm : m ∈ monthsOrder) (hp : p ∈ fam)
    (hpres : ∀ q ∈ fam, ∃ x ∈ rs, x.product = q)
    (hg : groupRecs rs m p = [r]) :
    okCell (aggregate rs fam field Agg.mean) m p = some (field r) := by
  rw [okCell_aggregate rs field Agg.mean hm hp hpres, hg]
  exact applyAgg_mean_singleton (field r)

/-- C9 counterexample: a record set consisting of one single-record group
does not make `aggregate` return that record's value at the cell — the
whole pipeline fails with `KeyError` because the other five family
products own no column. -/
theorem aggregate_lone_singleton_group_errors :
    aggregate [⟨1, 5, .POS_00_04, 7, 0⟩] upward_products (fun r => r.avg) Agg.mean =
      Except.error "KeyError" := rfl

/-- Witness for `aggregate_mean_singleton_exact` at a concrete input. -/
theorem aggregate_mean_singleton_exact_witness :
    okCell (aggregate
        [⟨1, 1, .POS_00_04, 17, 0⟩, ⟨2, 2, .POS_04_08, 11, 0⟩, ⟨3, 3, .POS_08_12, 12, 0⟩,
         ⟨4, 4, .POS_12_16, 13, 0⟩, ⟨5, 5, .POS_16_20, 14, 0⟩, ⟨6, 6, .POS_20_24, 15, 0⟩]
        upward_products (fun r => r.avg) Agg.mean) 1 .POS_00_04 =
      some ((⟨1, 1, .POS_00_04, 17, 0⟩ : Record).avg) :=
  aggregate_mean_singleton_exact _ upward_products (fun r => r.avg)
    (by decide) (by decide) (by decide) (by decide)

/-! ### Claim C8 -/

/-- C8 (amended): for the input holding the three January `POS_00_04`
records with values [10, 30, 20] on days 3, 17, 25 — together with one
record for each remaining upward product, which the pipeline requires —
the (Jan, POS_00_04) cell is exactly 20 under the mean combiner, exactly
30 under the max combiner, and the day-of-maximum annotation at that cell
is 17, the day of the record with value 30. -/
theorem scenario_jan_pos_00_04_cells :
    okCell (aggregate scenarioRecords upward_products (fun r => r.avg) Agg.mean)
        1 .POS_00_04 = some 20 ∧
    okCell (aggregate scenarioRecords upward_products (fun r => r.avg) Agg.max)
        1 .POS_00_04 = some 30 ∧
    okCell (buildMaxDayAnnot (familyFilter scenarioRecords upward_products)
        upward_products (fun r => r.avg)) 1 .POS_00_04 = some 17 := by
  refine ⟨?_, by decide, by decide⟩
  rw [okCell_aggregate scenarioRecords (fun r => r.avg) Agg.mean
      (by decide) (by decide) (by decide)]
  rw [show (groupRecs scenarioRecords 1 .POS_00_04).map (fun r => r.avg) =
      [10, 30, 20] from by decide]
  rw [applyAgg_mean_eq (by simp)]
  norm_num

/-- C8 counterexample: on the input consisting of the three `POS_00_04`
records alone, as the claim literally states it, `aggregate` raises
`KeyError` (the other five upward columns are absent), so no cell value is
produced at all. -/
theorem scenario_three_records_alone_error :
    aggregate (scenarioRecords.take 3) upward_products (fun r => r.avg) Agg.mean =
      Except.error "KeyError" := rfl

/-! ### Claim C5 -/

/-- C5 (code bug): the spec promises that a year with zero records for
`NEG_04_08` yields an empty column in every derived table, with no error
(spec sections 3, 4.1 and 8), but on such an input — here a single
downward record for `NEG_00_04` — both the mean pivot and the
day-annotation pipeline fail with `KeyError` at the column selection
`[downward_products]`, because the pivot output owns no `NEG_04_08`
column. -/
theorem missing_product_pipelines_keyerror :
    aggregate [⟨1, 5, .NEG_00_04, 12, 0⟩] downward_products (fun r => r.avg) Agg.mean =
        Except.error "KeyError" ∧
    buildMaxDayAnnot (familyFilter [⟨1, 5, .NEG_00_04, 12, 0⟩] downward_products)
        downward_products (fun r => r.avg) = Except.error "KeyError" :=
  ⟨rfl, rfl⟩

/-! ### Claims C3 and C4: the daily view -/

/-- The two chained row filters of the daily view match the first record
with the right day and product. -/
theorem find?_day_product (rs : List Record) (m d : Nat) (p : Product) :
    rs.find? (fun r => decide (decide (r.month = m ∧ r.day = d) = true ∧
        decide (r.product = p) = true)) =
      rs.find? (fun r => decide (r.month = m ∧ r.day = d ∧ r.product = p)) := by
  congr 1
  funext r
  by_cases h1 : r.month = m <;> by_cases h2 : r.day = d <;> by_cases h3 : r.product = p <;>
    simp [h1, h2, h3]

/-- The i-th entry of the daily view list, expressed through the first
record of the selected day carrying the i-th product
(`day_df[day_df['PRODUCT'] == prod]` followed by `row.iloc[0]`,
src/app.py lines 385-386). -/
theorem extract_day_entry_eq (rs : List Record) (m d : Nat) (field : Record → ℚ)
    {i : Nat} {p : Product} (hip : allProducts[i]? = some p) :
    (extract_day rs m d field)[i]? = some
      (match rs.find? (fun r => decide (r.month = m ∧ r.day = d ∧ r.product = p)) with
        | some r => PyFloat.num (field r)
        | none => PyFloat.nan) := by
  unfold extract_day
  rw [List.getElem?_map, hip]
  simp only [Option.map_some']
  rw [List.filter_head?, List.find?_filter, find?_day_product]

/-- C3: for every record set and every calendar day (a day with no
records included), the daily view holds exactly 12 entries, laid out as
the six upward products in period order followed by the six downward
products in period order; the entry of a product with no record that day
is the distinguished `nan` marker — never a fabricated zero — and the
entry of a present product is the chosen price field of the day's first
record for it. -/
theorem extract_day_twelve_entries (rs : List Record) (m d : Nat) (field : Record → ℚ)
    (i : Nat) (p : Product) (hip : allProducts[i]? = some p) :
    (extract_day rs m d field).length = 12 ∧
    ((extract_day rs m d field)[i]? = some PyFloat.nan ↔
      ∀ r ∈ rs, ¬(r.month = m ∧ r.day = d ∧ r.product = p)) ∧
    (∀ r, rs.find? (fun r => decide (r.month = m ∧ r.day = d ∧ r.product = p)) = some r →
      (extract_day rs m d field)[i]? = some (PyFloat.num (field r))) ∧
    PyFloat.nan ≠ PyFloat.num 0 := by
  refine ⟨by simp [extract_day, allProducts, upward_products, downward_products],
    ?_, ?_, by simp⟩
  · rw [extract_day_entry_eq rs m d field hip]
    constructor
    · intro h
      rcases hf : rs.find? (fun r => decide (r.month = m ∧ r.day = d ∧ r.product = p))
          with _ | r
      · rw [List.find?_eq_none] at hf
        intro r hr hcon
        exact hf r hr (decide_eq_true hcon)
      · rw [hf] at h
        exact absurd (Option.some.inj h).symm (by simp)
    · intro hall
      have hf : rs.find? (fun r => decide (r.month = m ∧ r.day = d ∧ r.product = p)) =
          none :=
        List.find?_eq_none.mpr (fun x hx hpx => hall x hx (of_decide_eq_true hpx))
      rw [hf]
  · intro r hf
    rw [extract_day_entry_eq rs m d field hip, hf]

/-- Witness for `extract_day_twelve_entries` at a concrete day and
product. -/
theorem extract_day_twelve_entries_witness :
    (extract_day [⟨1, 5, .POS_00_04, 42, 7⟩] 1 5 (fun r => r.avg)).length = 12 ∧
    ((extract_day [⟨1, 5, .POS_00_04, 42, 7⟩] 1 5 (fun r => r.avg))[0]? = some PyFloat.nan ↔
      ∀ r ∈ [(⟨1, 5, .POS_00_04, 42, 7⟩ : Record)],
        ¬(r.month = 1 ∧ r.day = 5 ∧ r.product = Product.POS_00_04)) ∧
    (∀ r, [(⟨1, 5, .POS_00_04, 42, 7⟩ : Record)].find?
        (fun r => decide (r.month = 1 ∧ r.day = 5 ∧ r.product = Product.POS_00_04)) = some r →
      (extract_day [⟨1, 5, .POS_00_04, 42, 7⟩] 1 5 (fun r => r.avg))[0]? =
        some (PyFloat.num r.avg)) ∧
    PyFloat.nan ≠ PyFloat.num 0 :=
  extract_day_twelve_entries [⟨1, 5, .POS_00_04, 42, 7⟩] 1 5 (fun r => r.avg)
    0 Product.POS_00_04 (by decide)

/-- C4 counterexample: on a day with no records the daily view fills every
entry with the numeric placeholder `float('nan')` — the missing marker is
NaN, contrary to the claim that it never is. -/
theorem extract_day_marker_is_nan :
    extract_day ([] : List Record) 1 5 (fun r => r.avg) = List.replicate 12 PyFloat.nan := rfl

/-- C4 (amended): the daily view marks a product absent on the selected
day with `float('nan')`: a sentinel distinct from zero and from every
numeric value — so downstream logic never mistakes it for a true price —
but it is the numeric placeholder NaN, not an optional/nullable value as
the spec requires. -/
theorem extract_day_nan_sentinel (rs : List Record) (m d : Nat) (field : Record → ℚ)
    (i : Nat) (p : Product) (hip : allProducts[i]? = some p)
    (habs : ∀ r ∈ rs, ¬(r.month = m ∧ r.day = d ∧ r.product = p)) :
    (extract_day rs m d field)[i]? = some PyFloat.nan ∧
    ∀ q : ℚ, PyFloat.nan ≠ PyFloat.num q := by
  refine ⟨?_, by intro q h; cases h⟩
  rw [extract_day_entry_eq rs m d field hip]
  have hf : rs.find? (fun r => decide (r.month = m ∧ r.day = d ∧ r.product = p)) = none :=
    List.find?_eq_none.mpr (fun x hx hpx => habs x hx (of_decide_eq_true hpx))
  rw [hf]

/-- Witness for `extract_day_nan_sentinel`. -/
theorem extract_day_nan_sentinel_witness :
    (extract_day [⟨1, 5, .POS_00_04, 42, 7⟩] 1 5 (fun r => r.avg))[1]? = some PyFloat.nan ∧
    ∀ q : ℚ, PyFloat.nan ≠ PyFloat.num q :=
  extract_day_nan_sentinel [⟨1, 5, .POS_00_04, 42, 7⟩] 1 5 (fun r => r.avg)
    1 Product.POS_04_08 (by decide) (by decide)

/-! ### Lemmas about `idxmax` and the sorted groups -/

theorem idxmax_nil (f : Record → ℚ) : idxmax f [] = none := rfl

theorem idxmax_cons_none {f : Record → ℚ} {t : List Record} (a : Record)
    (ht : idxmax f t = none) : idxmax f (a :: t) = some a := by
  simp [idxmax, ht]

theorem idxmax_cons_some {f : Record → ℚ} {t : List Record} {b : Record} (a : Record)
    (ht : idxmax f t = some b) :
    idxmax f (a :: t) = if f a < f b then some b else some a := by
  simp [idxmax, ht]

theorem idxmax_eq_none {f : Record → ℚ} {l : List Record} : idxmax f l = none ↔ l = [] := by
  cases l with
  | nil => simp [idxmax]
  | cons a t =>
    simp only [List.cons_ne_nil, iff_false]
    intro h
    cases ht : idxmax f t with
    | none => rw [idxmax_cons_none a ht] at h; cases h
    | some b =>
      rw [idxmax_cons_some a ht] at h
      by_cases hlt : f a < f b
      · rw [if_pos hlt] at h; cases h
      · rw [if_neg hlt] at h; cases h

theorem idxmax_mem_le {f : Record → ℚ} :
    ∀ {l : List Record} {r : Record}, idxmax f l = some r → r ∈ l ∧ ∀ x ∈ l, f x ≤ f r := by
  intro l
  induction l with
  | nil => intro r h; cases h
  | cons a t ih =>
    intro r h
    cases ht : idxmax f t with
    | none =>
      rw [idxmax_cons_none a ht] at h
      cases h
      have : t = [] := idxmax_eq_none.mp ht
      subst this
      refine ⟨List.mem_cons_self a [], ?_⟩
      intro x hx
      rcases List.mem_cons.mp hx with rfl | hx
      · exact le_refl _
      · cases hx
    | some b =>
      rw [idxmax_cons_some a ht] at h
      rcases ih ht with ⟨hmem, hbound⟩
      by_cases hlt : f a < f b
      · rw [if_pos hlt] at h
        cases h
        refine ⟨List.mem_cons_of_mem a hmem, ?_⟩
        intro x hx
        rcases List.mem_cons.mp hx with rfl | hx
        · exact le_of_lt hlt
        · exact hbound x hx
      · rw [if_neg hlt] at h
        cases h
        refine ⟨List.mem_cons_self _ _, ?_⟩
        intro x hx
        rcases List.mem_cons.mp hx with rfl | hx
        · exact le_refl _
        · exact le_trans (hbound x hx) (not_lt.mp hlt)

theorem idxmax_first {f : Record → ℚ} :
    ∀ {l : List Record}, List.Pairwise (fun a b => a.day < b.day) l →
      ∀ {r : Record}, idxmax f l = some r → ∀ x ∈ l, f x = f r → r.day ≤ x.day := by
  intro l
  induction l with
  | nil => intro _ r h; cases h
  | cons a t ih =>
    intro hp r h x hx hfx
    rw [List.pairwise_cons] at hp
    cases ht : idxmax f t with
    | none =>
      rw [idxmax_cons_none a ht] at h
      cases h
      have : t = [] := idxmax_eq_none.mp ht
      subst this
      rcases List.mem_cons.mp hx with rfl | hx
      · exact le_refl _
      · cases hx
    | some b =>
      rw [idxmax_cons_some a ht] at h
      by_cases hlt : f a < f b
      · rw [if_pos hlt] at h
        cases h
        rcases List.mem_cons.mp hx with rfl | hx
        · exact absurd hfx (ne_of_lt hlt)
        · exact ih hp.2 ht x hx hfx
      · rw [if_neg hlt] at h
        cases h
        rcases List.mem_cons.mp hx with rfl | hx
        · exact le_refl _
        · exact le_of_lt (hp.1 x hx)

theorem eq_of_day_eq :
    ∀ {l : List Record}, List.Pairwise (fun a b => a.day < b.day) l →
      ∀ {a b : Record}, a ∈ l → b ∈ l → a.day = b.day → a = b := by
  intro l
  induction l with
  | nil => intro _ a b ha; cases ha
  | cons x t ih =>
    intro hp a b ha hb hab
    rw [List.pairwise_cons] at hp
    rcases List.mem_cons.mp ha with ha1 | ha2 <;> rcases List.mem_cons.mp hb with hb1 | hb2
    · rw [ha1, hb1]
    · rw [ha1] at hab ⊢
      exact absurd hab (ne_of_lt (hp.1 b hb2))
    · rw [hb1] at hab ⊢
      exact absurd hab.symm (ne_of_lt (hp.1 a ha2))
    · exact ih hp.2 ha2 hb2 hab

theorem dne_symm : ∀ {a b : Record}, dne a b → dne b a :=
  fun h ⟨h1, h2, h3⟩ => h ⟨h1.symm, h2.symm, h3.symm⟩

theorem pairwise_day_lt {m : Nat} {p : Product} :
    ∀ {l : List Record}, List.Pairwise chronoLE l → List.Pairwise dne l →
      (∀ x ∈ l, x.month = m ∧ x.product = p) →
      List.Pairwise (fun a b => a.day < b.day) l := by
  intro l
  induction l with
  | nil => intro _ _ _; exact List.Pairwise.nil
  | cons a t ih =>
    intro hs hd hmem
    rw [List.pairwise_cons] at hs hd ⊢
    refine ⟨?_, ih hs.2 hd.2 (fun x hx => hmem x (List.mem_cons_of_mem a hx))⟩
    intro b hb
    have hma := hmem a (List.mem_cons_self a t)
    have hmb := hmem b (List.mem_cons_of_mem a hb)
    rcases hs.1 b hb with hlt | ⟨_, hdle⟩
    · rw [hma.1, hmb.1] at hlt
      exact absurd hlt (lt_irrefl m)
    · refine lt_of_le_of_ne hdle ?_
      intro hdeq
      exact hd.1 b hb ⟨hma.2.trans hmb.2.symm, hma.1.trans hmb.1.symm, hdeq⟩

theorem sorted_groupRecs (rs : List Record) (m : Nat) (p : Product) :
    List.Pairwise chronoLE (groupRecs (sort_values rs) m p) :=
  List.Pairwise.filter _ (List.sorted_insertionSort chronoLE rs)

theorem perm_groupRecs_sort (rs : List Record) (m : Nat) (p : Product) :
    (groupRecs (sort_values rs) m p).Perm (groupRecs rs m p) :=
  (List.perm_insertionSort chronoLE rs).filter _

theorem pairwise_dne_groupRecs {rs : List Record} (hinv : List.Pairwise dne rs)
    (m : Nat) (p : Product) : List.Pairwise dne (groupRecs (sort_values rs) m p) :=
  List.Pairwise.filter _
    (((List.perm_insertionSort chronoLE rs).pairwise_iff dne_symm).mpr hinv)

theorem pairwise_day_lt_group {rs : List Record} (hinv : List.Pairwise dne rs)
    (m : Nat) (p : Product) :
    List.Pairwise (fun a b => a.day < b.day) (groupRecs (sort_values rs) m p) :=
  pairwise_day_lt (sorted_groupRecs rs m p) (pairwise_dne_groupRecs hinv m p)
    (fun _ hx => (mem_groupRecs.mp hx).2)

theorem isChronoFirstMax_perm {g g' : List Record} (h : g'.Perm g) (f : Record → ℚ)
    (r : Record) : isChronoFirstMax g f r ↔ isChronoFirstMax g' f r := by
  unfold isChronoFirstMax
  rw [h.mem_iff]
  constructor
  · rintro ⟨h1, h2, h3⟩
    exact ⟨h1, fun x hx => h2 x (h.mem_iff.mp hx), fun x hx => h3 x (h.mem_iff.mp hx)⟩
  · rintro ⟨h1, h2, h3⟩
    exact ⟨h1, fun x hx => h2 x (h.mem_iff.mpr hx), fun x hx => h3 x (h.mem_iff.mpr hx)⟩

/-- Inside the chronologically sorted (month, product) group, `idxmax`
selects exactly the chronologically first record achieving the group's
maximum (the group has pairwise distinct days by the dataset invariant). -/
theorem idxmax_group_spec {rs : List Record} (hinv : List.Pairwise dne rs)
    (f : Record → ℚ) (m : Nat) (p : Product) {r : Record} :
    idxmax f (groupRecs (sort_values rs) m p) = some r ↔
      isChronoFirstMax (groupRecs rs m p) f r := by
  have hperm := perm_groupRecs_sort rs m p
  have hday := pairwise_day_lt_group hinv m p
  constructor
  · intro h
    rcases idxmax_mem_le h with ⟨hmem, hbound⟩
    have hrm := (mem_groupRecs.mp hmem).2
    refine ⟨hperm.mem_iff.mp hmem, fun x hx => hbound x (hperm.mem_iff.mpr hx), ?_⟩
    intro x hx hfx
    have hx' := hperm.mem_iff.mpr hx
    have hxm := (mem_groupRecs.mp hx').2
    exact Or.inr ⟨hrm.1.trans hxm.1.symm, idxmax_first hday h x hx' hfx⟩
  · rintro ⟨hmem, hbound, hfirst⟩
    have hmem' := hperm.mem_iff.mpr hmem
    rcases hne : idxmax f (groupRecs (sort_values rs) m p) with _ | r0
    · rw [idxmax_eq_none] at hne
      rw [hne] at hmem'
      cases hmem'
    · rcases idxmax_mem_le hne with ⟨hm0, hb0⟩
      have hfr : f r = f r0 := le_antisymm (hb0 r hmem') (hbound r0 (hperm.mem_iff.mp hm0))
      have h1 : r0.day ≤ r.day := idxmax_first hday hne r hmem' hfr
      have h2 : r.day ≤ r0.day := by
        rcases hfirst r0 (hperm.mem_iff.mp hm0) hfr.symm with hlt | ⟨_, hd⟩
        · have hrm := (mem_groupRecs.mp hmem').2.1
          have h0m := (mem_groupRecs.mp hm0).2.1
          rw [hrm, h0m] at hlt
          exact absurd hlt (lt_irrefl m)
        · exact hd
      rw [eq_of_day_eq hday hm0 hmem' (le_antisymm h1 h2)]

theorem buildMaxDayAnnot_ok_inv {rs : List Record} {ps : List Product} {f : Record → ℚ}
    {t : Grid Nat} (h : buildMaxDayAnnot rs ps f = Except.ok t) :
    t = mkGrid ps (fun m p => annotCell rs f m p) := by
  unfold buildMaxDayAnnot at h
  by_cases hc : (ps.all fun p => hasProduct rs p) = true
  · rw [if_pos hc] at h
    exact (Except.ok.inj h).symm
  · rw [if_neg hc] at h
    exact absurd h (by simp)

/-! ### Claim C2 -/

/-- C2: under the at-most-one-record-per-(date, product) invariant,
`build_max_day_annotation` is deterministic under input reordering — every
permutation of the record sequence produces the identical result — and in
a successful table each defined cell holds the day-of-month of the
chronologically first record achieving the (month, product) group's
maximum of the chosen price field. -/
theorem day_of_max_deterministic (rs rs' : List Record) (ps : List Product)
    (f : Record → ℚ) (hperm : rs'.Perm rs) (hinv : List.Pairwise dne rs) :
    buildMaxDayAnnot rs' ps f = buildMaxDayAnnot rs ps f ∧
    ∀ t, buildMaxDayAnnot rs ps f = Except.ok t →
      ∀ m ∈ monthsOrder, ∀ p ∈ ps, ∀ dd : Nat,
        cellAt t m p = some dd ↔
          ∃ r, isChronoFirstMax (groupRecs rs m p) f r ∧ r.day = dd := by
  have hinv' : List.Pairwise dne rs' := (hperm.pairwise_iff dne_symm).mpr hinv
  have hcells : ∀ m p, annotCell rs' f m p = annotCell rs f m p := by
    intro m p
    unfold annotCell
    have hgperm : (groupRecs rs' m p).Perm (groupRecs rs m p) := hperm.filter _
    rcases hx : idxmax f (groupRecs (sort_values rs) m p) with _ | r
    · rw [idxmax_eq_none] at hx
      have hnil : groupRecs (sort_values rs') m p = [] :=
        List.Perm.eq_nil (hx ▸ ((perm_groupRecs_sort rs' m p).trans
          (hgperm.trans (perm_groupRecs_sort rs m p).symm)))
      rw [hnil]
      rfl
    · have hspec := (idxmax_group_spec hinv f m p).mp hx
      have hspec' : isChronoFirstMax (groupRecs rs' m p) f r :=
        (isChronoFirstMax_perm hgperm f r).mp hspec
      rw [(idxmax_group_spec hinv' f m p).mpr hspec']
  constructor
  · unfold buildMaxDayAnnot
    have hfun : (fun p => hasProduct rs' p) = (fun p => hasProduct rs p) :=
      funext fun p => hasProduct_perm hperm p
    rw [hfun]
    by_cases hc : (ps.all fun p => hasProduct rs p) = true
    · rw [if_pos hc, if_pos hc]
      congr 1
      unfold mkGrid
      apply List.map_congr_left
      intro m _
      congr 1
      apply List.map_congr_left
      intro p _
      simp only [hcells]
    · rw [if_neg hc, if_neg hc]
  · intro t ht m hm p hp dd
    rw [buildMaxDayAnnot_ok_inv ht, cellAt_mkGrid ps _ hm hp]
    unfold annotCell
    constructor
    · intro h
      rcases Option.map_eq_some'.mp h with ⟨r, hr, hday⟩
      exact ⟨r, (idxmax_group_spec hinv f m p).mp hr, hday⟩
    · rintro ⟨r, hspec, rfl⟩
      rw [(idxmax_group_spec hinv f m p).mpr hspec]
      rfl

/-- Witness for `day_of_max_deterministic` at a concrete shuffled pair. -/
theorem day_of_max_deterministic_witness :
    buildMaxDayAnnot [⟨1, 9, .POS_00_04, 30, 0⟩, (⟨1, 2, .POS_00_04, 30, 0⟩ : Record)]
        upward_products (fun r => r.avg) =
      buildMaxDayAnnot [⟨1, 2, .POS_00_04, 30, 0⟩, (⟨1, 9, .POS_00_04, 30, 0⟩ : Record)]
        upward_products (fun r => r.avg) :=
  (day_of_max_deterministic
    [⟨1, 2, .POS_00_04, 30, 0⟩, ⟨1, 9, .POS_00_04, 30, 0⟩]
    [⟨1, 9, .POS_00_04, 30, 0⟩, ⟨1, 2, .POS_00_04, 30, 0⟩]
    upward_products (fun r => r.avg) (by decide) (by decide)).1

/-! ### Claim C10 -/

/-- C10: whenever the max pivot and the day-of-maximum annotation both
have a defined cell at (month, product), the annotated day is the day of
a record of that group whose field value equals the max-pivot cell — the
two tables are mutually consistent. -/
theorem annot_day_matches_max_cell (rs : List Record) (fam : List Product)
    (f : Record → ℚ) (m : Nat) (p : Product) (v : ℚ) (dd : Nat)
    (hm : m ∈ monthsOrder) (hp : p ∈ fam)
    (hv : okCell (aggregate rs fam f Agg.max) m p = some v)
    (hd : okCell (buildMaxDayAnnot (familyFilter rs fam) fam f) m p = some dd) :
    ∃ r ∈ groupRecs rs m p, r.day = dd ∧ f r = v := by
  have hvagg : applyAgg Agg.max ((groupRecs rs m p).map f) = some v := by
    rcases he : aggregate rs fam f Agg.max with e | t
    · rw [he] at hv
      cases hv
    · rw [← okCell_aggregate rs f Agg.max hm hp (aggregate_ok_inv he).2, hv]
  rcases applyAgg_max_eq_some.mp hvagg with ⟨hvmem, hvbound⟩
  have hdcell : annotCell (familyFilter rs fam) f m p = some dd := by
    rcases he : buildMaxDayAnnot (familyFilter rs fam) fam f with e | t
    · rw [he] at hd
      cases hd
    · rw [he] at hd
      have hd2 : cellAt t m p = some dd := hd
      rw [buildMaxDayAnnot_ok_inv he, cellAt_mkGrid fam _ hm hp] at hd2
      exact hd2
  rcases Option.map_eq_some'.mp hdcell with ⟨r0, hr0, hday⟩
  rcases idxmax_mem_le hr0 with ⟨hmem, hbound⟩
  have hg : groupRecs (familyFilter rs fam) m p = groupRecs rs m p :=
    groupRecs_familyFilter rs hp m
  have hmem' : r0 ∈ groupRecs rs m p := by
    have := (perm_groupRecs_sort (familyFilter rs fam) m p).mem_iff.mp hmem
    rw [hg] at this
    exact this
  have hle1 : f r0 ≤ v := hvbound (f r0) (List.mem_map_of_mem f hmem')
  have hle2 : v ≤ f r0 := by
    rcases List.mem_map.mp hvmem with ⟨x, hx, rfl⟩
    have hx' : x ∈ groupRecs (sort_values (familyFilter rs fam)) m p := by
      rw [← hg] at hx
      exact (perm_groupRecs_sort (familyFilter rs fam) m p).mem_iff.mpr hx
    exact hbound x hx'
  exact ⟨r0, hmem', hday, le_antisymm hle1 hle2⟩

/-! ### Lemmas about the skipna reductions and the colour range -/

theorem optMin_eq_none {l : List (Option ℚ)} : optMin l = none ↔ ∀ x ∈ l, x = none := by
  induction l with
  | nil => simp [optMin]
  | cons a t ih =>
    cases a with
    | none => simp [optMin, ih]
    | some q =>
      simp only [optMin]
      cases ht : optMin t with
      | none => simp
      | some m => simp

theorem optMin_eq_some {l : List (Option ℚ)} :
    ∀ {v : ℚ}, optMin l = some v ↔ some v ∈ l ∧ ∀ q : ℚ, some q ∈ l → v ≤ q := by
  induction l with
  | nil => intro v; simp [optMin]
  | cons a t ih =>
    intro v
    cases a with
    | none => simp [optMin, ih]
    | some q =>
      simp only [optMin]
      cases ht : optMin t with
      | none =>
        rw [optMin_eq_none] at ht
        constructor
        · intro h
          rw [← Option.some.inj h]
          refine ⟨List.mem_cons_self _ _, ?_⟩
          intro q' hq'
          rcases List.mem_cons.mp hq' with he | hm
          · exact le_of_eq (Option.some.inj he.symm)
          · exact absurd (ht _ hm) (by simp)
        · rintro ⟨hm, _⟩
          have hvq : v = q := by
            rcases List.mem_cons.mp hm with he | hmm
            · exact Option.some.inj he
            · exact absurd (ht _ hmm) (by simp)
          rw [hvq]
      | some mt =>
        rcases ih.mp ht with ⟨hmt, hbt⟩
        constructor
        · intro h
          rw [← Option.some.inj h]
          constructor
          · rcases min_choice q mt with hm | hm
            · rw [hm]
              exact List.mem_cons_self _ _
            · rw [hm]
              exact List.mem_cons_of_mem _ hmt
          · intro q' hq'
            rcases List.mem_cons.mp hq' with he | hmm
            · exact le_trans (min_le_left q mt) (le_of_eq (Option.some.inj he.symm))
            · exact le_trans (min_le_right q mt) (hbt q' hmm)
        · rintro ⟨hm, hb⟩
          have h1 : v ≤ q := hb q (List.mem_cons_self _ _)
          have h2 : v ≤ mt := hb mt (List.mem_cons_of_mem _ hmt)
          have h3 : Min.min q mt ≤ v := by
            rcases List.mem_cons.mp hm with he | hmm
            · exact le_trans (min_le_left q mt) (le_of_eq (Option.some.inj he).symm)
            · exact le_trans (min_le_right q mt) (hbt v hmm)
          show some (Min.min q mt) = some v
          rw [le_antisymm h3 (le_min h1 h2)]

theorem optMax_eq_none {l : List (Option ℚ)} : optMax l = none ↔ ∀ x ∈ l, x = none := by
  induction l with
  | nil => simp [optMax]
  | cons a t ih =>
    cases a with
    | none => simp [optMax, ih]
    | some q =>
      simp only [optMax]
      cases ht : optMax t with
      | none => simp
      | some m => simp

theorem optMax_eq_some {l : List (Option ℚ)} :
    ∀ {v : ℚ}, optMax l = some v ↔ some v ∈ l ∧ ∀ q : ℚ, some q ∈ l → q ≤ v := by
  induction l with
  | nil => intro v; simp [optMax]
  | cons a t ih =>
    intro v
    cases a with
    | none => simp [optMax, ih]
    | some q =>
      simp only [optMax]
      cases ht : optMax t with
      | none =>
        rw [optMax_eq_none] at ht
        constructor
        · intro h
          rw [← Option.some.inj h]
          refine ⟨List.mem_cons_self _ _, ?_⟩
          intro q' hq'
          rcases List.mem_cons.mp hq' with he | hm
          · exact le_of_eq (Option.some.inj he)
          · exact absurd (ht _ hm) (by simp)
        · rintro ⟨hm, _⟩
          have hvq : v = q := by
            rcases List.mem_cons.mp hm with he | hmm
            · exact Option.some.inj he
            · exact absurd (ht _ hmm) (by simp)
          rw [hvq]
      | some mt =>
        rcases ih.mp ht with ⟨hmt, hbt⟩
        constructor
        · intro h
          rw [← Option.some.inj h]
          constructor
          · rcases max_choice q mt with hm | hm
            · rw [hm]
              exact List.mem_cons_self _ _
            · rw [hm]
              exact List.mem_cons_of_mem _ hmt
          · intro q' hq'
            rcases List.mem_cons.mp hq' with he | hmm
            · exact le_trans (le_of_eq (Option.some.inj he)) (le_max_left q mt)
            · exact le_trans (hbt q' hmm) (le_max_right q mt)
        · rintro ⟨hm, hb⟩
          have h1 : q ≤ v := hb q (List.mem_cons_self _ _)
          have h2 : mt ≤ v := hb mt (List.mem_cons_of_mem _ hmt)
          have h3 : v ≤ Max.max q mt := by
            rcases List.mem_cons.mp hm with he | hmm
            · exact le_trans (le_of_eq (Option.some.inj he)) (le_max_left q mt)
            · exact le_trans (hbt v hmm) (le_max_right q mt)
          show some (Max.max q mt) = some v
          rw [le_antisymm (max_le h1 h2) h3]

theorem lookupKey_eq_some_iff {κ α : Type} [DecidableEq κ] {l : List (κ × α)}
    (hnd : (l.map Prod.fst).Nodup) {k : κ} {v : α} :
    lookupKey k l = some v ↔ (k, v) ∈ l := by
  induction l with
  | nil => simp [lookupKey]
  | cons c t ih =>
    rcases c with ⟨k', v'⟩
    simp only [List.map_cons, List.nodup_cons] at hnd
    by_cases hk : k = k'
    · subst hk
      have hl : lookupKey k ((k, v') :: t) = some v' := by simp [lookupKey]
      rw [hl]
      constructor
      · intro h
        rw [← Option.some.inj h]
        exact List.mem_cons_self _ _
      · intro h
        rcases List.mem_cons.mp h with he | hm
        · rw [((Prod.mk.injEq _ _ _ _).mp he).2]
        · exact absurd (List.mem_map_of_mem Prod.fst hm) hnd.1
    · simp only [lookupKey, if_neg hk]
      rw [ih hnd.2]
      constructor
      · exact List.mem_cons_of_mem _
      · intro h
        rcases List.mem_cons.mp h with he | hm
        · exact absurd ((Prod.mk.injEq _ _ _ _).mp he).1 hk
        · exact hm

theorem mem_colValues {t : Grid ℚ} {p : Product} {q : ℚ} :
    some q ∈ colValues t p ↔ ∃ row ∈ t, (lookupKey p row.2).join = some q := by
  simp [colValues, List.mem_map]

theorem mem_definedCells {t : Grid ℚ} {q : ℚ} :
    q ∈ definedCells t ↔ ∃ row ∈ t, ∃ c ∈ row.2, c.2 = some q := by
  simp only [definedCells, List.mem_flatten, List.mem_map]
  constructor
  · rintro ⟨l, ⟨row, hrow, rfl⟩, hq⟩
    rcases List.mem_filterMap.mp hq with ⟨c, hc, hcq⟩
    exact ⟨row, hrow, c, hc, hcq⟩
  · rintro ⟨row, hrow, c, hc, hcq⟩
    exact ⟨row.2.filterMap (fun c => c.2), ⟨row, hrow, rfl⟩,
      List.mem_filterMap.mpr ⟨c, hc, hcq⟩⟩

/-- Under the rectangularity of a pandas frame (and distinct column
labels) a value is a defined cell exactly when some owned column holds
it. -/
theorem definedCells_iff_col {t : Grid ℚ} (hR : Rect t) (hN : (gridCols t).Nodup) {q : ℚ} :
    q ∈ definedCells t ↔ ∃ p ∈ gridCols t, some q ∈ colValues t p := by
  rw [mem_definedCells]
  constructor
  · rintro ⟨row, hrow, c, hc, hcq⟩
    have hnd : (row.2.map Prod.fst).Nodup := by
      rw [hR row hrow]
      exact hN
    refine ⟨c.1, ?_, ?_⟩
    · rw [← hR row hrow]
      exact List.mem_map_of_mem Prod.fst hc
    · rw [mem_colValues]
      refine ⟨row, hrow, ?_⟩
      rw [(lookupKey_eq_some_iff hnd).mpr (show (c.1, c.2) ∈ row.2 from hc)]
      rw [hcq]
      rfl
  · rintro ⟨p, _, hcol⟩
    rcases mem_colValues.mp hcol with ⟨row, hrow, hjoin⟩
    have hnd : (row.2.map Prod.fst).Nodup := by
      rw [hR row hrow]
      exact hN
    rcases Option.join_eq_some.mp hjoin with hlk
    exact ⟨row, hrow, (p, some q), (lookupKey_eq_some_iff hnd).mp hlk, rfl⟩

theorem dfMin_eq_none {t : Grid ℚ} (hR : Rect t) (hN : (gridCols t).Nodup) :
    dfMin t = none ↔ definedCells t = [] := by
  unfold dfMin
  rw [optMin_eq_none]
  constructor
  · intro h
    by_contra hne
    rcases List.exists_mem_of_ne_nil _ hne with ⟨q, hq⟩
    rcases (definedCells_iff_col hR hN).mp hq with ⟨p, hp, hcol⟩
    have hcn := h (optMin (colValues t p))
      (List.mem_map_of_mem (fun p => optMin (colValues t p)) hp)
    rw [optMin_eq_none] at hcn
    exact absurd (hcn _ hcol) (by simp)
  · intro h x hx
    rcases List.mem_map.mp hx with ⟨p, hp, rfl⟩
    rw [optMin_eq_none]
    intro y hy
    by_contra hyne
    rcases Option.ne_none_iff_exists'.mp hyne with ⟨q, rfl⟩
    have : q ∈ definedCells t := (definedCells_iff_col hR hN).mpr ⟨p, hp, hy⟩
    rw [h] at this
    cases this

theorem dfMax_eq_none {t : Grid ℚ} (hR : Rect t) (hN : (gridCols t).Nodup) :
    dfMax t = none ↔ definedCells t = [] := by
  unfold dfMax
  rw [optMax_eq_none]
  constructor
  · intro h
    by_contra hne
    rcases List.exists_mem_of_ne_nil _ hne with ⟨q, hq⟩
    rcases (definedCells_iff_col hR hN).mp hq with ⟨p, hp, hcol⟩
    have hcn := h (optMax (colValues t p))
      (List.mem_map_of_mem (fun p => optMax (colValues t p)) hp)
    rw [optMax_eq_none] at hcn
    exact absurd (hcn _ hcol) (by simp)
  · intro h x hx
    rcases List.mem_map.mp hx with ⟨p, hp, rfl⟩
    rw [optMax_eq_none]
    intro y hy
    by_contra hyne
    rcases Option.ne_none_iff_exists'.mp hyne with ⟨q, rfl⟩
    have : q ∈ definedCells t := (definedCells_iff_col hR hN).mpr ⟨p, hp, hy⟩
    rw [h] at this
    cases this

theorem dfMin_eq_some {t : Grid ℚ} (hR : Rect t) (hN : (gridCols t).Nodup) {v : ℚ} :
    dfMin t = some v ↔ v ∈ definedCells t ∧ ∀ q ∈ definedCells t, v ≤ q := by
  unfold dfMin
  rw [optMin_eq_some]
  constructor
  · rintro ⟨hmem, hbound⟩
    rcases List.mem_map.mp hmem with ⟨p, hp, hpv⟩
    rcases optMin_eq_some.mp hpv with ⟨hvc, _⟩
    refine ⟨(definedCells_iff_col hR hN).mpr ⟨p, hp, hvc⟩, ?_⟩
    intro q hq
    rcases (definedCells_iff_col hR hN).mp hq with ⟨p', hp', hq'⟩
    rcases hsome : optMin (colValues t p') with _ | m'
    · rw [optMin_eq_none] at hsome
      exact absurd (hsome _ hq') (by simp)
    · have h1 : v ≤ m' := hbound m' (List.mem_map.mpr ⟨p', hp', hsome⟩)
      exact le_trans h1 ((optMin_eq_some.mp hsome).2 q hq')
  · rintro ⟨hv, hb⟩
    rcases (definedCells_iff_col hR hN).mp hv with ⟨p, hp, hvc⟩
    rcases hsome : optMin (colValues t p) with _ | m
    · rw [optMin_eq_none] at hsome
      exact absurd (hsome _ hvc) (by simp)
    · rcases optMin_eq_some.mp hsome with ⟨hmc, hmb⟩
      have hmv : m = v :=
        le_antisymm (hmb v hvc)
          (hb m ((definedCells_iff_col hR hN).mpr ⟨p, hp, hmc⟩))
      refine ⟨List.mem_map.mpr ⟨p, hp, hmv ▸ hsome⟩, ?_⟩
      intro q' hq'
      rcases List.mem_map.mp hq' with ⟨p', hp', hq's⟩
      rcases optMin_eq_some.mp hq's with ⟨hq'c, _⟩
      exact hb q' ((definedCells_iff_col hR hN).mpr ⟨p', hp', hq'c⟩)

theorem dfMax_eq_some {t : Grid ℚ} (hR : Rect t) (hN : (gridCols t).Nodup) {v : ℚ} :
    dfMax t = some v ↔ v ∈ definedCells t ∧ ∀ q ∈ definedCells t, q ≤ v := by
  unfold dfMax
  rw [optMax_eq_some]
  constructor
  · rintro ⟨hmem, hbound⟩
    rcases List.mem_map.mp hmem with ⟨p, hp, hpv⟩
    rcases optMax_eq_some.mp hpv with ⟨hvc, _⟩
    refine ⟨(definedCells_iff_col hR hN).mpr ⟨p, hp, hvc⟩, ?_⟩
    intro q hq
    rcases (definedCells_iff_col hR hN).mp hq with ⟨p', hp', hq'⟩
    rcases hsome : optMax (colValues t p') with _ | m'
    · rw [optMax_eq_none] at hsome
      exact absurd (hsome _ hq') (by simp)
    · have h1 : m' ≤ v := hbound m' (List.mem_map.mpr ⟨p', hp', hsome⟩)
      exact le_trans ((optMax_eq_some.mp hsome).2 q hq') h1
  · rintro ⟨hv, hb⟩
    rcases (definedCells_iff_col hR hN).mp hv with ⟨p, hp, hvc⟩
    rcases hsome : optMax (colValues t p) with _ | m
    · rw [optMax_eq_none] at hsome
      exact absurd (hsome _ hvc) (by simp)
    · rcases optMax_eq_some.mp hsome with ⟨hmc, hmb⟩
      have hmv : m = v :=
        le_antisymm (hb m ((definedCells_iff_col hR hN).mpr ⟨p, hp, hmc⟩))
          (hmb v hvc)
      refine ⟨List.mem_map.mpr ⟨p, hp, hmv ▸ hsome⟩, ?_⟩
      intro q' hq'
      rcases List.mem_map.mp hq' with ⟨p', hp', hq's⟩
      rcases optMax_eq_some.mp hq's with ⟨hq'c, _⟩
      exact hb q' ((definedCells_iff_col hR hN).mpr ⟨p', hp', hq'c⟩)

theorem pymin_none_left (b : Option ℚ) : pymin none b = none := by cases b <;> rfl

theorem pymin_some_none (x : ℚ) : pymin (some x) none = some x := rfl

theorem pymin_some_some (x y : ℚ) : pymin (some x) (some y) = some (Min.min x y) := by
  show (if y < x then some y else some x) = some (Min.min x y)
  by_cases h : y < x
  · rw [if_pos h, min_eq_right (le_of_lt h)]
  · rw [if_neg h, min_eq_left (not_lt.mp h)]

theorem pymax_none_left (b : Option ℚ) : pymax none b = none := by cases b <;> rfl

theorem pymax_some_none (x : ℚ) : pymax (some x) none = some x := rfl

theorem pymax_some_some (x y : ℚ) : pymax (some x) (some y) = some (Max.max x y) := by
  show (if x < y then some y else some x) = some (Max.max x y)
  by_cases h : x < y
  · rw [if_pos h, max_eq_right (le_of_lt h)]
  · rw [if_neg h, max_eq_left (not_lt.mp h)]

/-! ### Claim C6 -/

/-- C6 (amended): `value_range` returns the minimum and maximum over the
defined cells of both tables together whenever table A has at least one
defined cell; its result is undefined (NaN) exactly when table A has no
defined cells — not "iff both tables are empty" as originally claimed,
because Python's `min`/`max` keep the first argument when a comparison
with NaN is false, so an entirely-empty A poisons the result even when B
has values, while an entirely-empty B is harmless. -/
theorem value_range_spec (A B : Grid ℚ) (hRA : Rect A) (hRB : Rect B)
    (hNA : (gridCols A).Nodup) (hNB : (gridCols B).Nodup) :
    ((value_range A B).1 = none ↔ definedCells A = []) ∧
    ((value_range A B).2 = none ↔ definedCells A = []) ∧
    (∀ v, (value_range A B).1 = some v ↔ definedCells A ≠ [] ∧
      v ∈ definedCells A ++ definedCells B ∧
      ∀ q ∈ definedCells A ++ definedCells B, v ≤ q) ∧
    (∀ v, (value_range A B).2 = some v ↔ definedCells A ≠ [] ∧
      v ∈ definedCells A ++ definedCells B ∧
      ∀ q ∈ definedCells A ++ definedCells B, q ≤ v) := by
  rcases hA : dfMin A with _ | a
  · have hAe : definedCells A = [] := (dfMin_eq_none hRA hNA).mp hA
    have hA' : dfMax A = none := (dfMax_eq_none hRA hNA).mpr hAe
    refine ⟨?_, ?_, ?_, ?_⟩
    · show pymin (dfMin A) (dfMin B) = none ↔ _
      rw [hA, pymin_none_left]
      simp [hAe]
    · show pymax (dfMax A) (dfMax B) = none ↔ _
      rw [hA', pymax_none_left]
      simp [hAe]
    · intro v
      show pymin (dfMin A) (dfMin B) = some v ↔ _
      rw [hA, pymin_none_left]
      simp [hAe]
    · intro v
      show pymax (dfMax A) (dfMax B) = some v ↔ _
      rw [hA', pymax_none_left]
      simp [hAe]
  · have hAne : definedCells A ≠ [] := by
      intro he
      rw [(dfMin_eq_none hRA hNA).mpr he] at hA
      cases hA
    rcases (dfMin_eq_some hRA hNA).mp hA with ⟨haM, haB⟩
    rcases hA' : dfMax A with _ | a'
    · exact absurd ((dfMax_eq_none hRA hNA).mp hA') hAne
    rcases (dfMax_eq_some hRA hNA).mp hA' with ⟨haM', haB'⟩
    rcases hB : dfMin B with _ | b
    · have hBe : definedCells B = [] := (dfMin_eq_none hRB hNB).mp hB
      have hB' : dfMax B = none := (dfMax_eq_none hRB hNB).mpr hBe
      have happ : definedCells A ++ definedCells B = definedCells A := by
        rw [hBe, List.append_nil]
      refine ⟨?_, ?_, ?_, ?_⟩
      · show pymin (dfMin A) (dfMin B) = none ↔ _
        rw [hA, hB, pymin_some_none]
        simp [hAne]
      · show pymax (dfMax A) (dfMax B) = none ↔ _
        rw [hA', hB', pymax_some_none]
        simp [hAne]
      · intro v
        show pymin (dfMin A) (dfMin B) = some v ↔ _
        rw [hA, hB, pymin_some_none, happ]
        constructor
        · intro h
          rw [← Option.some.inj h]
          exact ⟨hAne, haM, haB⟩
        · rintro ⟨_, hv, hb⟩
          rw [le_antisymm (haB v hv) (hb a haM)]
      · intro v
        show pymax (dfMax A) (dfMax B) = some v ↔ _
        rw [hA', hB', pymax_some_none, happ]
        constructor
        · intro h
          rw [← Option.some.inj h]
          exact ⟨hAne, haM', haB'⟩
        · rintro ⟨_, hv, hb⟩
          rw [le_antisymm (hb a' haM') (haB' v hv)]
    · have hBne : definedCells B ≠ [] := by
        intro he
        rw [(dfMin_eq_none hRB hNB).mpr he] at hB
        cases hB
      rcases (dfMin_eq_some hRB hNB).mp hB with ⟨hbM, hbB⟩
      rcases hB' : dfMax B with _ | b'
      · exact absurd ((dfMax_eq_none hRB hNB).mp hB') hBne
      rcases (dfMax_eq_some hRB hNB).mp hB' with ⟨hbM', hbB'⟩
      have hminMem : Min.min a b ∈ definedCells A ++ definedCells B := by
        rcases min_choice a b with hm | hm
        · rw [hm]
          exact List.mem_append_left _ haM
        · rw [hm]
          exact List.mem_append_right _ hbM
      have hminB : ∀ q ∈ definedCells A ++ definedCells B, Min.min a b ≤ q := by
        intro q hq
        rcases List.mem_append.mp hq with h | h
        · exact le_trans (min_le_left a b) (haB q h)
        · exact le_trans (min_le_right a b) (hbB q h)
      have hmaxMem : Max.max a' b' ∈ definedCells A ++ definedCells B := by
        rcases max_choice a' b' with hm | hm
        · rw [hm]
          exact List.mem_append_left _ haM'
        · rw [hm]
          exact List.mem_append_right _ hbM'
      have hmaxB : ∀ q ∈ definedCells A ++ definedCells B, q ≤ Max.max a' b' := by
        intro q hq
        rcases List.mem_append.mp hq with h | h
        · exact le_trans (haB' q h) (le_max_left a' b')
        · exact le_trans (hbB' q h) (le_max_right a' b')
      refine ⟨?_, ?_, ?_, ?_⟩
      · show pymin (dfMin A) (dfMin B) = none ↔ _
        rw [hA, hB, pymin_some_some]
        simp [hAne]
      · show pymax (dfMax A) (dfMax B) = none ↔ _
        rw [hA', hB', pymax_some_some]
        simp [hAne]
      · intro v
        show pymin (dfMin A) (dfMin B) = some v ↔ _
        rw [hA, hB, pymin_some_some]
        constructor
        · intro h
          rw [← Option.some.inj h]
          exact ⟨hAne, hminMem, hminB⟩
        · rintro ⟨_, hv, hb⟩
          rw [le_antisymm (hminB v hv) (hb _ hminMem)]
      · intro v
        show pymax (dfMax A) (dfMax B) = some v ↔ _
        rw [hA', hB', pymax_some_some]
        constructor
        · intro h
          rw [← Option.some.inj h]
          exact ⟨hAne, hmaxMem, hmaxB⟩
        · rintro ⟨_, hv, hb⟩
          rw [le_antisymm (hb _ hmaxMem) (hmaxB v hv)]

/-- C6 counterexample: with table A entirely empty (one NaN cell) and
table B holding the defined value 5, `value_range` is undefined in both
components even though not both tables are empty — Python's
`min(nan, 5)` is `nan` — refuting "undefined iff both tables empty". -/
theorem value_range_empty_A_poisons :
    value_range [(1, [(Product.POS_00_04, (none : Option ℚ))])]
        [(1, [(Product.NEG_00_04, some (5 : ℚ))])] = (none, none) ∧
    definedCells [(1, [(Product.NEG_00_04, some (5 : ℚ))])] = [5] := ⟨rfl, rfl⟩

/-- Witness for `value_range_spec` at concrete one-cell tables. -/
theorem value_range_spec_witness :
    ((value_range [(1, [(Product.POS_00_04, some (3 : ℚ))])]
        [(1, [(Product.NEG_00_04, some (5 : ℚ))])]).1 = none ↔
      definedCells [(1, [(Product.POS_00_04, some (3 : ℚ))])] = []) ∧
    ((value_range [(1, [(Product.POS_00_04, some (3 : ℚ))])]
        [(1, [(Product.NEG_00_04, some (5 : ℚ))])]).2 = none ↔
      definedCells [(1, [(Product.POS_00_04, some (3 : ℚ))])] = []) ∧
    (∀ v, (value_range [(1, [(Product.POS_00_04, some (3 : ℚ))])]
        [(1, [(Product.NEG_00_04, some (5 : ℚ))])]).1 = some v ↔
      definedCells [(1, [(Product.POS_00_04, some (3 : ℚ))])] ≠ [] ∧
      v ∈ definedCells [(1, [(Product.POS_00_04, some (3 : ℚ))])] ++
          definedCells [(1, [(Product.NEG_00_04, some (5 : ℚ))])] ∧
      ∀ q ∈ definedCells [(1, [(Product.POS_00_04, some (3 : ℚ))])] ++
          definedCells [(1, [(Product.NEG_00_04, some (5 : ℚ))])], v ≤ q) ∧
    (∀ v, (value_range [(1, [(Product.POS_00_04, some (3 : ℚ))])]
        [(1, [(Product.NEG_00_04, some (5 : ℚ))])]).2 = some v ↔
      definedCells [(1, [(Product.POS_00_04, some (3 : ℚ))])] ≠ [] ∧
      v ∈ definedCells [(1, [(Product.POS_00_04, some (3 : ℚ))])] ++
          definedCells [(1, [(Product.NEG_00_04, some (5 : ℚ))])] ∧
      ∀ q ∈ definedCells [(1, [(Product.POS_00_04, some (3 : ℚ))])] ++
          definedCells [(1, [(Product.NEG_00_04, some (5 : ℚ))])], q ≤ v) :=
  value_range_spec [(1, [(Product.POS_00_04, some (3 : ℚ))])]
    [(1, [(Product.NEG_00_04, some (5 : ℚ))])]
    (by decide) (by decide) (by decide) (by decide)

/-- Witness for `annot_day_matches_max_cell` at a concrete input. -/
theorem annot_day_matches_max_cell_witness :
    ∃ r ∈ groupRecs
        [⟨1, 4, .POS_00_04, 25, 0⟩, ⟨1, 8, .POS_04_08, 11, 0⟩, ⟨1, 9, .POS_08_12, 12, 0⟩,
         ⟨1, 10, .POS_12_16, 13, 0⟩, ⟨1, 11, .POS_16_20, 14, 0⟩,
         (⟨1, 12, .POS_20_24, 15, 0⟩ : Record)] 1 Product.POS_00_04,
      r.day = 4 ∧ r.avg = 25 :=
  annot_day_matches_max_cell
    [⟨1, 4, .POS_00_04, 25, 0⟩, ⟨1, 8, .POS_04_08, 11, 0⟩, ⟨1, 9, .POS_08_12, 12, 0⟩,
     ⟨1, 10, .POS_12_16, 13, 0⟩, ⟨1, 11, .POS_16_20, 14, 0⟩, ⟨1, 12, .POS_20_24, 15, 0⟩]
    upward_products (fun r => r.avg) 1 Product.POS_00_04 25 4
    (by decide) (by decide) (by decide) (by decide)

end AFRR
